import Mathlib

set_option maxHeartbeats 1000000
set_option maxRecDepth 4000

/-!
Shallow embedding of the storage and service layer of the fullstack-todo-app
repository: the file-backed `StorageService` (src/services/storageService.js),
the `Todo` entity (src/models/Todo.js) and the `TodoService` built on top of
them.  Persisted state is modelled as the string content of the storage file
(plus the `.tmp` staging file); JSON serialization is modelled by an explicit
character-level printer and parser for the fragment of JSON the store actually
uses (arrays of flat objects with string and boolean fields).  The 2-space
pretty-printing of `JSON.stringify(todos, null, 2)` is elided: it only inserts
inter-token whitespace, which `JSON.parse` ignores.  Control-character escapes
inside JSON strings are likewise elided; the two structural escapes (`\"` and
`\\`) are modelled exactly.
-/

namespace TodoApp

/-- JSON field values occurring in persisted todo records: strings and
booleans (the five fields of a serialized todo are strings and a boolean). -/
inductive Jv where
  | str (s : String)
  | bool (b : Bool)
deriving DecidableEq

/-- A persisted JSON object: a finite list of key/value fields. -/
abbrev Jrec := List (String × Jv)

/-- JSON string escaping of a single character, as done by `JSON.stringify`:
the quote and the backslash are escaped; other characters are kept. -/
def escChar (c : Char) : List Char :=
  if c = '"' ∨ c = '\\' then ['\\', c] else [c]

/-- JSON string escaping of a character sequence. -/
def escList : List Char → List Char
  | [] => []
  | c :: cs => escChar c ++ escList cs

/-- Printed form of a JSON string literal, quotes included. -/
def printStr (s : String) : List Char :=
  '"' :: escList s.data ++ ['"']

/-- Printed form of a JSON field value. -/
def printJv : Jv → List Char
  | .str s => printStr s
  | .bool true => ['t', 'r', 'u', 'e']
  | .bool false => ['f', 'a', 'l', 's', 'e']

/-- Printed form of one `"key":value` field. -/
def printField (f : String × Jv) : List Char :=
  printStr f.1 ++ ':' :: printJv f.2

/-- Printed form of the second and later fields of an object, each preceded
by a comma. -/
def printFieldsTail : Jrec → List Char
  | [] => []
  | f :: fs => ',' :: printField f ++ printFieldsTail fs

/-- Printed form of an object after its opening brace. -/
def printRecBody : Jrec → List Char
  | [] => ['}']
  | f :: fs => printField f ++ printFieldsTail fs ++ ['}']

/-- Printed form of a JSON object. -/
def printRec (r : Jrec) : List Char :=
  '{' :: printRecBody r

/-- Printed form of the second and later elements of the top-level array. -/
def printRecsTail : List Jrec → List Char
  | [] => []
  | r :: rs => ',' :: printRec r ++ printRecsTail rs

/-- Printed characters of the whole storage file: a JSON array of objects,
as produced by `JSON.stringify` (modulo elided indentation whitespace). -/
def printFileChars : List Jrec → List Char
  | [] => ['[', ']']
  | r :: rs => '[' :: (printRec r ++ printRecsTail rs ++ [']'])

/-- The persisted file content for a collection of records. -/
def printFile (rs : List Jrec) : String :=
  ⟨printFileChars rs⟩

/-- Parse the body of a JSON string literal (after the opening quote),
returning the unescaped contents and the remaining input. -/
def pStrAux : List Char → Option (List Char × List Char)
  | [] => none
  | c :: rest =>
    if c = '"' then some ([], rest)
    else if c = '\\' then
      match rest with
      | [] => none
      | d :: rest2 => (pStrAux rest2).map (fun p => (d :: p.1, p.2))
    else (pStrAux rest).map (fun p => (c :: p.1, p.2))

/-- Expect a literal character sequence as a prefix of the input. -/
def pLit : List Char → List Char → Option (List Char)
  | [], rest => some rest
  | c :: cs, d :: rest => if d = c then pLit cs rest else none
  | _ :: _, [] => none

/-- Parse one JSON field value (string or boolean literal). -/
def pJv (cs : List Char) : Option (Jv × List Char) :=
  match cs with
  | [] => none
  | c :: rest =>
    if c = '"' then (pStrAux rest).map (fun p => (Jv.str ⟨p.1⟩, p.2))
    else if c = 't' then (pLit ['r', 'u', 'e'] rest).map (fun r => (Jv.bool true, r))
    else if c = 'f' then (pLit ['a', 'l', 's', 'e'] rest).map (fun r => (Jv.bool false, r))
    else none

/-- Parse one `"key":value` field. -/
def pField (cs : List Char) : Option ((String × Jv) × List Char) :=
  match cs with
  | [] => none
  | c :: rest =>
    if c = '"' then
      match pStrAux rest with
      | none => none
      | some (k, rest1) =>
        match rest1 with
        | [] => none
        | c1 :: rest2 =>
          if c1 = ':' then (pJv rest2).map (fun p => ((⟨k⟩, p.1), p.2))
          else none
    else none

/-- Parse the remaining fields of an object (after at least one field),
fuelled by an upper bound on the number of fields. -/
def pFieldsTail (fuel : Nat) (acc : Jrec) (cs : List Char) : Option (Jrec × List Char) :=
  match cs with
  | [] => none
  | c :: rest =>
    if c = '}' then some (acc.reverse, rest)
    else if c = ',' then
      match fuel with
      | 0 => none
      | fuel' + 1 =>
        match pField rest with
        | none => none
        | some (f, rest1) => pFieldsTail fuel' (f :: acc) rest1
    else none

/-- Parse one JSON object. -/
def pRec (cs : List Char) : Option (Jrec × List Char) :=
  match cs with
  | [] => none
  | c :: rest =>
    if c = '{' then
      match rest with
      | [] => none
      | c1 :: rest1 =>
        if c1 = '}' then some ([], rest1)
        else
          match pField (c1 :: rest1) with
          | none => none
          | some (f, rest2) => pFieldsTail rest2.length [f] rest2
    else none

/-- Parse the remaining elements of the top-level array (after at least one
element), fuelled by an upper bound on the number of elements. -/
def pRecsTail (fuel : Nat) (acc : List Jrec) (cs : List Char) : Option (List Jrec × List Char) :=
  match cs with
  | [] => none
  | c :: rest =>
    if c = ']' then some (acc.reverse, rest)
    else if c = ',' then
      match fuel with
      | 0 => none
      | fuel' + 1 =>
        match pRec rest with
        | none => none
        | some (r, rest1) => pRecsTail fuel' (r :: acc) rest1
    else none

/-- `JSON.parse` of the storage file content, for the array-of-flat-objects
fragment the store writes; `none` models a `SyntaxError`.  The whole input
must be consumed. -/
def parseFile (s : String) : Option (List Jrec) :=
  match s.data with
  | [] => none
  | c :: rest =>
    if c = '[' then
      match rest with
      | [] => none
      | c1 :: rest1 =>
        if c1 = ']' then (if rest1.isEmpty then some [] else none)
        else
          match pRec (c1 :: rest1) with
          | none => none
          | some (r, rest2) =>
            match pRecsTail rest2.length [r] rest2 with
            | some (rs, rest3) => if rest3.isEmpty then some rs else none
            | none => none
    else none

/-! ## File system state and the file-backed `StorageService` -/

/-- The durable state seen by one `StorageService` instance: the content at
the final location `filePath` and at the staging location `filePath + ".tmp"`
(`none` = the location does not exist). -/
structure FS where
  file : Option String
  temp : Option String
deriving DecidableEq

/-- Fault injection for the underlying `fs` operations: `some m` makes the
corresponding call fail with an error whose `message` is `m`.  Faults model
non-`ENOENT` I/O failures (absence of the file is part of `FS` itself). -/
structure Flt where
  readErr : Option String
  writeErr : Option String
  renameErr : Option String
deriving DecidableEq

/-- No injected faults. -/
def noFlt : Flt := ⟨none, none, none⟩

/-- A raised JavaScript `Error`, identified by its message. -/
structure JsError where
  message : String
deriving DecidableEq

instance {ε α : Type} [DecidableEq ε] [DecidableEq α] : DecidableEq (Except ε α) := fun x y =>
  match x, y with
  | .error a, .error b =>
    if h : a = b then isTrue (by rw [h]) else isFalse (by simp [h])
  | .ok a, .ok b =>
    if h : a = b then isTrue (by rw [h]) else isFalse (by simp [h])
  | .error _, .ok _ => isFalse (by simp)
  | .ok _, .error _ => isFalse (by simp)

/-- The `todos` argument of `saveTodos`: either an array of records, or some
non-array value (rejected by the `Array.isArray` guard). -/
inductive JArg where
  | arr (rs : List Jrec)
  | notArr
deriving DecidableEq

/-- `StorageService.saveTodos`: reject non-arrays; otherwise write the
serialized collection to the `.tmp` staging file, then atomically rename it
onto the final location.  On a write or rename failure the staging artifact
is unlinked (the `unlink` is modelled as succeeding; the code ignores a
cleanup failure) and a wrapped error is raised.  `fs.mkdir` of the data
directory has no observable effect in this model. -/
def saveTodos (flt : Flt) (todos : JArg) (st : FS) : Except JsError Unit × FS :=
  match todos with
  | .notArr => (.error ⟨"Todos must be an array"⟩, st)
  | .arr rs =>
    match flt.writeErr with
    | some m => (.error ⟨"Failed to save todos: " ++ m⟩, ⟨st.file, none⟩)
    | none =>
      match flt.renameErr with
      | some m => (.error ⟨"Failed to save todos: " ++ m⟩, ⟨st.file, none⟩)
      | none => (.ok (), ⟨some (printFile rs), none⟩)

/-- `StorageService.initializeStorage` (source name `initializeStorage`):
create the data directory, then create the file holding `[]` if it does not
exist; existing content is left untouched.  Failures are wrapped. -/
def initStorage (flt : Flt) (st : FS) : Except JsError Unit × FS :=
  match st.file with
  | some _ => (.ok (), st)
  | none =>
    match saveTodos flt (.arr []) st with
    | (.ok _, st1) => (.ok (), st1)
    | (.error e, st1) => (.error ⟨"Failed to initialize storage: " ++ e.message⟩, st1)

/-- `StorageService.loadTodos`: read and `JSON.parse` the file.  A missing
file (`ENOENT`) initializes storage and yields the empty collection; a parse
failure raises the format error; any other read failure is wrapped. -/
def loadTodos (flt : Flt) (st : FS) : Except JsError (List Jrec) × FS :=
  match st.file with
  | none =>
    match initStorage flt st with
    | (.ok _, st1) => (.ok [], st1)
    | (.error e, st1) => (.error e, st1)
  | some content =>
    match flt.readErr with
    | some m => (.error ⟨"Failed to load todos: " ++ m⟩, st)
    | none =>
      match parseFile content with
      | none => (.error ⟨"Invalid JSON format in storage file"⟩, st)
      | some rs => (.ok rs, st)

/-! ## The `Todo` entity (src/models/Todo.js) -/

/-- JavaScript values appearing as domain-level arguments (description,
completed flag, id): strings, booleans, numbers, `null` and `undefined`. -/
inductive Jin where
  | str (s : String)
  | bool (b : Bool)
  | num (n : Int)
  | null
  | undef
deriving DecidableEq

/-- JavaScript whitespace recognized by `String.prototype.trim`, modelled by
the ASCII whitespace characters (tab, LF, VT, FF, CR, space). -/
def isJsWs (c : Char) : Bool :=
  c = ' ' ∨ c = '\t' ∨ c = '\n' ∨ c = '\r' ∨ c = '\x0b' ∨ c = '\x0c'

/-- `String.prototype.trim` on a character list: drop whitespace from both
ends. -/
def jsTrimList (cs : List Char) : List Char :=
  ((cs.dropWhile isJsWs).reverse.dropWhile isJsWs).reverse

/-- `description.trim()`. -/
def jsTrim (s : String) : String :=
  ⟨jsTrimList s.data⟩

/-- `Todo.validateDescription`: require a string whose trimmed form is
non-empty and at most 500 characters, and return the trimmed form. -/
def validateDescription (d : Jin) : Except JsError String :=
  match d with
  | .str s =>
    let trimmed := jsTrim s
    if trimmed.length = 0 then .error ⟨"Description cannot be empty"⟩
    else if trimmed.length > 500 then .error ⟨"Description cannot exceed 500 characters"⟩
    else .ok trimmed
  | _ => .error ⟨"Description must be a string"⟩

/-- A `Todo` instance.  The two `Date` fields are carried in their
serialized (ISO-string) form, since no operation in scope computes on them;
`new Date()` is modelled by the `now` parameter threaded into each
operation. -/
structure Todo where
  id : String
  description : String
  completed : Bool
  createdAt : String
  updatedAt : String
deriving DecidableEq

/-- The `Todo` constructor.  `gid` is the id `uuidv4()` would generate;
`idArg` models the `id` parameter (`none` = omitted or `null`).  A present
non-empty string id is kept, otherwise the generated id is used (the
truthiness of non-string ids is elided: every record in scope carries a
string id). -/
def mkTodo (now gid : String) (idArg : Option Jv) (desc : Jin) : Except JsError Todo :=
  let chosenId : String :=
    match idArg with
    | some (.str s) => if s = "" then gid else s
    | _ => gid
  match validateDescription desc with
  | .error e => .error e
  | .ok d => .ok ⟨chosenId, d, false, now, now⟩

/-- `Todo.updateDescription`: revalidate, store the trimmed description and
refresh `updatedAt`. -/
def updateDescription (now : String) (t : Todo) (nd : Jin) : Except JsError Todo :=
  match validateDescription nd with
  | .error e => .error e
  | .ok d => .ok ⟨t.id, d, t.completed, t.createdAt, now⟩

/-- `Todo.setCompleted`: require a boolean, set it and refresh `updatedAt`. -/
def setCompleted (now : String) (t : Todo) (c : Jin) : Except JsError Todo :=
  match c with
  | .bool b => .ok ⟨t.id, t.description, b, t.createdAt, now⟩
  | _ => .error ⟨"Completed status must be a boolean"⟩

/-- `Todo.toggleComplete`: flip `completed` and refresh `updatedAt`. -/
def toggleTodo (now : String) (t : Todo) : Todo :=
  ⟨t.id, t.description, !t.completed, t.createdAt, now⟩

/-- `Todo.prototype.toJSON`: the five fields as a plain object (the `Date`
fields serialize to their ISO strings, which is how they are carried). -/
def toJSON (t : Todo) : Jrec :=
  [("id", .str t.id), ("description", .str t.description),
   ("completed", .bool t.completed),
   ("createdAt", .str t.createdAt), ("updatedAt", .str t.updatedAt)]

/-- JavaScript property access `r.k` on a parsed record (`none` =
`undefined`). -/
def getField : Jrec → String → Option Jv
  | [], _ => none
  | f :: fs, k => if f.1 = k then some f.2 else getField fs k

/-- Coerce a field-access result into a domain argument value. -/
def jinOfField : Option Jv → Jin
  | none => .undef
  | some (.str s) => .str s
  | some (.bool b) => .bool b

/-- JavaScript truthiness of a field value. -/
def jvTruthy : Jv → Bool
  | .str s => s ≠ ""
  | .bool b => b

/-- `new Date(v)` followed by serialization: a string date is kept as is; the
only other truthy field value in scope is `true`, which `new Date` reads as
the timestamp 1. -/
def dateStrOf : Jv → String
  | .str s => s
  | .bool _ => "1970-01-01T00:00:00.001Z"

/-- `Todo.fromJSON` on a parsed record (the `!data || typeof data !==
'object'` guard cannot fire on an object value): construct via the validating
constructor, then overwrite `completed` when the stored field is boolean and
each timestamp when the stored field is truthy. -/
def fromJSON (now gid : String) (data : Jrec) : Except JsError Todo :=
  match mkTodo now gid (getField data "id") (jinOfField (getField data "description")) with
  | .error e => .error e
  | .ok t0 =>
    let t1 : Todo :=
      match getField data "completed" with
      | some (.bool b) => ⟨t0.id, t0.description, b, t0.createdAt, t0.updatedAt⟩
      | _ => t0
    let t2 : Todo :=
      match getField data "createdAt" with
      | some v => if jvTruthy v then ⟨t1.id, t1.description, t1.completed, dateStrOf v, t1.updatedAt⟩ else t1
      | none => t1
    let t3 : Todo :=
      match getField data "updatedAt" with
      | some v => if jvTruthy v then ⟨t2.id, t2.description, t2.completed, t2.createdAt, dateStrOf v⟩ else t2
      | none => t2
    .ok t3

/-! ## The `TodoService` (src/services/storageService.js, TodoService part)

Each operation takes the injected faults, the current time `now` (as the
serialized date `new Date()` would produce), the id `gid` that `uuidv4()`
would generate next, and the storage state; it returns the operation's result
(or raised error) together with the final storage state. -/

/-- `todosData.map(data => Todo.fromJSON(data))`, propagating the first
thrown error. -/
def fromJSONList (now gid : String) : List Jrec → Except JsError (List Todo)
  | [] => .ok []
  | r :: rs =>
    match fromJSON now gid r with
    | .error e => .error e
    | .ok t =>
      match fromJSONList now gid rs with
      | .error e => .error e
      | .ok ts => .ok (t :: ts)

/-- `TodoService.getAllTodos`: load and deserialize every record; any error
(from the store or from deserialization) is wrapped. -/
def getAllTodos (flt : Flt) (now gid : String) (st : FS) : Except JsError (List Todo) × FS :=
  match loadTodos flt st with
  | (.error e, st1) => (.error ⟨"Failed to retrieve todos: " ++ e.message⟩, st1)
  | (.ok rs, st1) =>
    match fromJSONList now gid rs with
    | .error e => (.error ⟨"Failed to retrieve todos: " ++ e.message⟩, st1)
    | .ok ts => (.ok ts, st1)

/-- `TodoService.createTodo`: construct (and validate) the new todo, load the
collection, append, persist; any error raised on the way is wrapped. -/
def createTodo (flt : Flt) (now gid : String) (desc : Jin) (st : FS) : Except JsError Todo × FS :=
  match mkTodo now gid none desc with
  | .error e => (.error ⟨"Failed to create todo: " ++ e.message⟩, st)
  | .ok todo =>
    match getAllTodos flt now gid st with
    | (.error e, st1) => (.error ⟨"Failed to create todo: " ++ e.message⟩, st1)
    | (.ok ts, st1) =>
      match saveTodos flt (.arr ((ts ++ [todo]).map toJSON)) st1 with
      | (.error e, st2) => (.error ⟨"Failed to create todo: " ++ e.message⟩, st2)
      | (.ok _, st2) => (.ok todo, st2)

/-- `Array.prototype.findIndex` (with `none` for `-1`). -/
def jsFindIndex {α : Type} (p : α → Bool) : List α → Option Nat
  | [] => none
  | x :: xs => if p x then some 0 else (jsFindIndex p xs).map (· + 1)

/-- Placeholder todo for the (unreachable) out-of-bounds index read; the
index produced by `findIndex` is always in bounds. -/
def dfltTodo : Todo := ⟨"", "", false, "", ""⟩

/-- The `updates` argument of `updateTodo`: a mapping, or one of the
non-mapping values the guard rejects. -/
inductive UpdArg where
  | undef
  | null
  | str (s : String)
  | bool (b : Bool)
  | num (n : Int)
  | obj (fs : List (String × Jin))
deriving DecidableEq

/-- Property access `updates.k` (`none` = `undefined`). -/
def getUpd : List (String × Jin) → String → Option Jin
  | [], _ => none
  | f :: fs, k => if f.1 = k then some f.2 else getUpd fs k

/-- The `!== undefined` test on an accessed property: a present explicit
`undefined` counts as absent. -/
def updGiven (o : Option Jin) : Option Jin :=
  match o with
  | some .undef => none
  | x => x

/-- `TodoService.updateTodo`: validate the id (non-empty string) and the
updates argument (truthy object), load, locate the record, apply the
recognized fields in order (`description`, then `completed`), persist, and
return the updated record. -/
def updateTodo (flt : Flt) (now gid : String) (id : Jin) (updates : UpdArg) (st : FS) :
    Except JsError Todo × FS :=
  match id with
  | .str s =>
    if s = "" then (.error ⟨"Valid todo ID is required"⟩, st)
    else
      match updates with
      | .obj ufs =>
        match getAllTodos flt now gid st with
        | (.error e, st1) => (.error e, st1)
        | (.ok ts, st1) =>
          match jsFindIndex (fun t => t.id == s) ts with
          | none => (.error ⟨"Todo not found"⟩, st1)
          | some i =>
            let todo := ts.getD i dfltTodo
            let step1 : Except JsError Todo :=
              match updGiven (getUpd ufs "description") with
              | some dv => updateDescription now todo dv
              | none => .ok todo
            match step1 with
            | .error e => (.error e, st1)
            | .ok t1 =>
              let step2 : Except JsError Todo :=
                match updGiven (getUpd ufs "completed") with
                | some cv => setCompleted now t1 cv
                | none => .ok t1
              match step2 with
              | .error e => (.error e, st1)
              | .ok t2 =>
                match saveTodos flt (.arr ((ts.set i t2).map toJSON)) st1 with
                | (.error e, st2) => (.error e, st2)
                | (.ok _, st2) => (.ok t2, st2)
      | _ => (.error ⟨"Updates object is required"⟩, st)
  | _ => (.error ⟨"Valid todo ID is required"⟩, st)

/-- `TodoService.toggleComplete`: validate the id, load, locate, flip the
completion flag, persist, return the updated record. -/
def toggleComplete (flt : Flt) (now gid : String) (id : Jin) (st : FS) :
    Except JsError Todo × FS :=
  match id with
  | .str s =>
    if s = "" then (.error ⟨"Valid todo ID is required"⟩, st)
    else
      match getAllTodos flt now gid st with
      | (.error e, st1) => (.error e, st1)
      | (.ok ts, st1) =>
        match jsFindIndex (fun t => t.id == s) ts with
        | none => (.error ⟨"Todo not found"⟩, st1)
        | some i =>
          let t1 := toggleTodo now (ts.getD i dfltTodo)
          match saveTodos flt (.arr ((ts.set i t1).map toJSON)) st1 with
          | (.error e, st2) => (.error e, st2)
          | (.ok _, st2) => (.ok t1, st2)
  | _ => (.error ⟨"Valid todo ID is required"⟩, st)

/-- `TodoService.deleteTodo`: validate the id, load, locate, remove the
record (`splice(todoIndex, 1)`), persist, return `true`. -/
def deleteTodo (flt : Flt) (now gid : String) (id : Jin) (st : FS) :
    Except JsError Bool × FS :=
  match id with
  | .str s =>
    if s = "" then (.error ⟨"Valid todo ID is required"⟩, st)
    else
      match getAllTodos flt now gid st with
      | (.error e, st1) => (.error e, st1)
      | (.ok ts, st1) =>
        match jsFindIndex (fun t => t.id == s) ts with
        | none => (.error ⟨"Todo not found"⟩, st1)
        | some i =>
          match saveTodos flt (.arr ((ts.eraseIdx i).map toJSON)) st1 with
          | (.error e, st2) => (.error e, st2)
          | (.ok _, st2) => (.ok true, st2)
  | _ => (.error ⟨"Valid todo ID is required"⟩, st)

/-! ## Abbreviations used by the statements -/

/-- The storage state whose file holds exactly the serialized collection
`ts` (and no staging leftover). -/
def storeOf (ts : List Todo) : FS :=
  ⟨some (printFile (ts.map toJSON)), none⟩

/-- A well-formed stored todo: non-empty string id, description that is its
own trimmed form with length 1..500, and truthy (non-empty) serialized
timestamps.  Every record the service itself persists satisfies this. -/
def ValidTodo (t : Todo) : Prop :=
  t.id ≠ "" ∧ jsTrim t.description = t.description ∧
  1 ≤ t.description.length ∧ t.description.length ≤ 500 ∧
  t.createdAt ≠ "" ∧ t.updatedAt ≠ ""

instance (t : Todo) : Decidable (ValidTodo t) := by
  unfold ValidTodo
  infer_instance

/-- Whether an `updates` argument is a mapping (a JavaScript object). -/
def isObjArg : UpdArg → Bool
  | .obj _ => true
  | _ => false

/-- A concrete well-formed stored todo, used in concrete instantiations. -/
def cexTodo : Todo := ⟨"a1", "buy milk", false, "T0", "T0"⟩

/-- A structurally well-formed stored record whose description is
whitespace-only (so it trims to empty). -/
def badRecEmpty : Jrec :=
  [("id", .str "bad-1"), ("description", .str "   "), ("completed", .bool false)]

/-- A structurally well-formed stored record with no description field. -/
def badRecMissing : Jrec :=
  [("id", .str "bad-2"), ("completed", .bool true)]

/-! ## Round trip of the JSON printer and parser -/

theorem mkData (s : String) : (⟨s.data⟩ : String) = s := rfl

theorem pStrAux_cons (c : Char) (rest : List Char) :
    pStrAux (c :: rest) =
      if c = '"' then some ([], rest)
      else if c = '\\' then
        match rest with
        | [] => none
        | d :: rest2 => (pStrAux rest2).map (fun p => (d :: p.1, p.2))
      else (pStrAux rest).map (fun p => (c :: p.1, p.2)) := by
  rw [pStrAux.eq_def]

theorem pLit_nil (rest : List Char) : pLit [] rest = some rest := by
  rw [pLit.eq_def]

theorem pLit_cons (c : Char) (cs : List Char) (d : Char) (rest : List Char) :
    pLit (c :: cs) (d :: rest) = if d = c then pLit cs rest else none := by
  rw [pLit.eq_def]

theorem pJv_cons (c : Char) (rest : List Char) :
    pJv (c :: rest) =
      if c = '"' then (pStrAux rest).map (fun p => (Jv.str ⟨p.1⟩, p.2))
      else if c = 't' then (pLit ['r', 'u', 'e'] rest).map (fun r => (Jv.bool true, r))
      else if c = 'f' then (pLit ['a', 'l', 's', 'e'] rest).map (fun r => (Jv.bool false, r))
      else none := by
  rw [pJv.eq_def]

theorem pField_cons (c : Char) (rest : List Char) :
    pField (c :: rest) =
      if c = '"' then
        match pStrAux rest with
        | none => none
        | some (k, rest1) =>
          match rest1 with
          | [] => none
          | c1 :: rest2 =>
            if c1 = ':' then (pJv rest2).map (fun p => ((⟨k⟩, p.1), p.2))
            else none
      else none := by
  rw [pField.eq_def]

theorem pFieldsTail_cons (fuel : Nat) (acc : Jrec) (c : Char) (rest : List Char) :
    pFieldsTail fuel acc (c :: rest) =
      if c = '}' then some (acc.reverse, rest)
      else if c = ',' then
        match fuel with
        | 0 => none
        | fuel' + 1 =>
          match pField rest with
          | none => none
          | some (f, rest1) => pFieldsTail fuel' (f :: acc) rest1
      else none := by
  rw [pFieldsTail.eq_def]

theorem pRec_cons (c : Char) (rest : List Char) :
    pRec (c :: rest) =
      if c = '{' then
        match rest with
        | [] => none
        | c1 :: rest1 =>
          if c1 = '}' then some ([], rest1)
          else
            match pField (c1 :: rest1) with
            | none => none
            | some (f, rest2) => pFieldsTail rest2.length [f] rest2
      else none := by
  rw [pRec.eq_def]

theorem pRecsTail_cons (fuel : Nat) (acc : List Jrec) (c : Char) (rest : List Char) :
    pRecsTail fuel acc (c :: rest) =
      if c = ']' then some (acc.reverse, rest)
      else if c = ',' then
        match fuel with
        | 0 => none
        | fuel' + 1 =>
          match pRec rest with
          | none => none
          | some (r, rest1) => pRecsTail fuel' (r :: acc) rest1
      else none := by
  rw [pRecsTail.eq_def]

theorem pStrAux_escList (cs rest : List Char) :
    pStrAux (escList cs ++ '"' :: rest) = some (cs, rest) := by
  induction cs with
  | nil => simp [escList, pStrAux_cons]
  | cons c cs ih =>
    by_cases hc : c = '"' ∨ c = '\\'
    · have h1 : ('\\' : Char) ≠ '"' := by decide
      have he : escList (c :: cs) ++ '"' :: rest =
          '\\' :: (c :: (escList cs ++ '"' :: rest)) := by
        simp [escList, escChar, hc]
      rw [he, pStrAux_cons]
      simp [h1, pStrAux_cons, ih]
    · push_neg at hc
      have he : escList (c :: cs) ++ '"' :: rest =
          c :: (escList cs ++ '"' :: rest) := by
        simp [escList, escChar, hc.1, hc.2]
      rw [he, pStrAux_cons]
      simp [hc.1, hc.2, ih]

theorem pJv_print (v : Jv) (rest : List Char) :
    pJv (printJv v ++ rest) = some (v, rest) := by
  cases v with
  | str s =>
    have he : printJv (.str s) ++ rest = '"' :: (escList s.data ++ '"' :: rest) := by
      simp [printJv, printStr]
    rw [he, pJv_cons]
    simp [pStrAux_escList, mkData]
  | bool b =>
    cases b with
    | true =>
      have h1 : ('t' : Char) ≠ '"' := by decide
      show pJv ('t' :: 'r' :: 'u' :: 'e' :: rest) = _
      rw [pJv_cons]
      simp [h1, pLit_cons, pLit_nil]
    | false =>
      have h1 : ('f' : Char) ≠ '"' := by decide
      have h2 : ('f' : Char) ≠ 't' := by decide
      show pJv ('f' :: 'a' :: 'l' :: 's' :: 'e' :: rest) = _
      rw [pJv_cons]
      simp [h1, h2, pLit_cons, pLit_nil]

theorem printField_flat (f : String × Jv) (rest : List Char) :
    printField f ++ rest =
      '"' :: (escList f.1.data ++ '"' :: ':' :: (printJv f.2 ++ rest)) := by
  simp [printField, printStr]

theorem pField_print (k : String) (v : Jv) (rest : List Char) :
    pField ('"' :: (escList k.data ++ '"' :: ':' :: (printJv v ++ rest))) =
      some ((k, v), rest) := by
  rw [pField_cons]
  simp [pStrAux_escList, pJv_print, mkData]

theorem pFieldsTail_print (fs : Jrec) :
    ∀ (fuel : Nat) (acc : Jrec) (rest : List Char), fs.length ≤ fuel →
      pFieldsTail fuel acc (printFieldsTail fs ++ '}' :: rest) =
        some (acc.reverse ++ fs, rest) := by
  induction fs with
  | nil =>
    intro fuel acc rest _
    show pFieldsTail fuel acc ('}' :: rest) = _
    rw [pFieldsTail_cons]
    simp
  | cons f fs ih =>
    intro fuel acc rest h
    cases fuel with
    | zero => exact absurd h (by simp)
    | succ fuel' =>
      have h1 : (',' : Char) ≠ '}' := by decide
      have hle : fs.length ≤ fuel' := by
        simp only [List.length_cons] at h
        omega
      have he : printFieldsTail (f :: fs) ++ '}' :: rest =
          ',' :: (printField f ++ (printFieldsTail fs ++ '}' :: rest)) := by
        simp [printFieldsTail]
      rw [he, pFieldsTail_cons]
      rw [printField_flat]
      simp [h1, pField_print, ih fuel' (f :: acc) rest hle]

theorem length_printFieldsTail (fs : Jrec) :
    fs.length ≤ (printFieldsTail fs).length := by
  induction fs with
  | nil => simp [printFieldsTail]
  | cons f fs ih =>
    simp only [printFieldsTail, List.length_cons, List.length_append]
    omega

theorem pRec_print (r : Jrec) (rest : List Char) :
    pRec (printRec r ++ rest) = some (r, rest) := by
  cases r with
  | nil =>
    show pRec ('{' :: '}' :: rest) = _
    rw [pRec_cons]
    simp
  | cons f fs =>
    have h1 : ('"' : Char) ≠ '}' := by decide
    have he : printRec (f :: fs) ++ rest =
        '{' :: ('"' :: (escList f.1.data ++ '"' :: ':' ::
          (printJv f.2 ++ (printFieldsTail fs ++ '}' :: rest)))) := by
      simp [printRec, printRecBody, printField, printStr]
    rw [he, pRec_cons]
    simp only [h1]
    simp [h1, pField_print]
    rw [pFieldsTail_print fs ((printFieldsTail fs).length + (rest.length + 1)) [f] rest
      (by have := length_printFieldsTail fs; omega)]
    simp

theorem length_printRecsTail (rs : List Jrec) :
    rs.length ≤ (printRecsTail rs).length := by
  induction rs with
  | nil => simp [printRecsTail]
  | cons r rs ih =>
    simp only [printRecsTail, List.length_cons, List.length_append]
    omega

theorem pRecsTail_print (rs : List Jrec) :
    ∀ (fuel : Nat) (acc : List Jrec) (rest : List Char), rs.length ≤ fuel →
      pRecsTail fuel acc (printRecsTail rs ++ ']' :: rest) =
        some (acc.reverse ++ rs, rest) := by
  induction rs with
  | nil =>
    intro fuel acc rest _
    show pRecsTail fuel acc (']' :: rest) = _
    rw [pRecsTail_cons]
    simp
  | cons r rs ih =>
    intro fuel acc rest h
    cases fuel with
    | zero => exact absurd h (by simp)
    | succ fuel' =>
      have h1 : (',' : Char) ≠ ']' := by decide
      have hle : rs.length ≤ fuel' := by
        simp only [List.length_cons] at h
        omega
      have he : printRecsTail (r :: rs) ++ ']' :: rest =
          ',' :: (printRec r ++ (printRecsTail rs ++ ']' :: rest)) := by
        simp [printRecsTail]
      rw [he, pRecsTail_cons]
      simp [h1, pRec_print, ih fuel' (r :: acc) rest hle]

/-- Round trip of the serialization: parsing a printed collection recovers
it exactly, element order and field order included. -/
theorem parseFile_printFile (rs : List Jrec) : parseFile (printFile rs) = some rs := by
  cases rs with
  | nil =>
    rw [parseFile.eq_def]
    show (match (['[', ']'] : List Char) with
      | [] => none
      | c :: rest => _) = _
    simp
  | cons r rs =>
    rw [parseFile.eq_def]
    have hdata : (printFile (r :: rs)).data =
        '[' :: ('{' :: (printRecBody r ++ (printRecsTail rs ++ ']' :: []))) := by
      simp [printFile, printFileChars, printRec]
    rw [hdata]
    have h1 : ('{' : Char) ≠ ']' := by decide
    have hrec : pRec ('{' :: (printRecBody r ++ (printRecsTail rs ++ ']' :: []))) =
        some (r, printRecsTail rs ++ ']' :: []) := by
      have := pRec_print r (printRecsTail rs ++ ']' :: [])
      simpa [printRec] using this
    simp [h1, hrec]
    rw [pRecsTail_print rs ((printRecsTail rs).length + 1) [r] []
      (by have := length_printRecsTail rs; omega)]
    simp

/-! ## Properties of the trim operation -/

theorem jsTrimList_eq_rdrop (cs : List Char) :
    jsTrimList cs = List.rdropWhile isJsWs (cs.dropWhile isJsWs) := by
  simp [jsTrimList, List.rdropWhile]

theorem jsTrimList_idem (cs : List Char) :
    jsTrimList (jsTrimList cs) = jsTrimList cs := by
  rw [jsTrimList_eq_rdrop, jsTrimList_eq_rdrop]
  have hb : (List.rdropWhile isJsWs (cs.dropWhile isJsWs)).dropWhile isJsWs =
      List.rdropWhile isJsWs (cs.dropWhile isJsWs) := by
    obtain ⟨t, ht⟩ := List.rdropWhile_prefix isJsWs (cs.dropWhile isJsWs)
    cases hbc : List.rdropWhile isJsWs (cs.dropWhile isJsWs) with
    | nil => simp
    | cons x b' =>
      have ha2 : cs.dropWhile isJsWs = x :: (b' ++ t) := by
        rw [← ht, hbc]
        simp
      have hlen : 0 < (cs.dropWhile isJsWs).length := by
        rw [ha2]
        simp
      have ha := (List.dropWhile_eq_self_iff).mp
        (List.dropWhile_idempotent isJsWs cs) hlen
      have hx : ¬ isJsWs x = true := by
        have hget := List.get_of_eq ha2 ⟨0, hlen⟩
        simp at hget
        simp only [List.get_eq_getElem] at ha
        rw [hget] at ha
        exact ha
      rw [List.dropWhile_cons]
      simp [hx]
  rw [hb, List.rdropWhile_idempotent]

theorem jsTrim_idem (s : String) : jsTrim (jsTrim s) = jsTrim s := by
  show (⟨jsTrimList (jsTrimList s.data)⟩ : String) = ⟨jsTrimList s.data⟩
  exact congrArg String.mk (jsTrimList_idem s.data)

/-! ## Evaluation lemmas for the entity and service layers -/

theorem validateDescription_ok (s : String) (h1 : 1 ≤ (jsTrim s).length)
    (h2 : (jsTrim s).length ≤ 500) :
    validateDescription (.str s) = .ok (jsTrim s) := by
  have h0 : ¬ (jsTrim s).length = 0 := by omega
  have h5 : ¬ (jsTrim s).length > 500 := by omega
  simp [validateDescription, h0, h5]

theorem getField_cons (f : String × Jv) (fs : Jrec) (k : String) :
    getField (f :: fs) k = if f.1 = k then some f.2 else getField fs k := by
  rw [getField.eq_def]

theorem getUpd_cons (f : String × Jin) (fs : List (String × Jin)) (k : String) :
    getUpd (f :: fs) k = if f.1 = k then some f.2 else getUpd fs k := by
  rw [getUpd.eq_def]

theorem fromJSONList_cons (now gid : String) (r : Jrec) (rs : List Jrec) :
    fromJSONList now gid (r :: rs) =
      match fromJSON now gid r with
      | .error e => .error e
      | .ok t =>
        match fromJSONList now gid rs with
        | .error e => .error e
        | .ok ts => .ok (t :: ts) := by
  rw [fromJSONList.eq_def]

theorem jsFindIndex_cons {α : Type} (p : α → Bool) (x : α) (xs : List α) :
    jsFindIndex p (x :: xs) =
      if p x then some 0 else (jsFindIndex p xs).map (· + 1) := by
  rw [jsFindIndex.eq_def]

/-- Deserializing a serialized well-formed todo recovers it exactly. -/
theorem fromJSON_toJSON (now gid : String) (t : Todo) (h : ValidTodo t) :
    fromJSON now gid (toJSON t) = .ok t := by
  obtain ⟨hid, htrim, hl1, hl2, hca, hua⟩ := h
  have hval : validateDescription (.str t.description) = .ok t.description := by
    rw [validateDescription_ok t.description (by rw [htrim]; omega) (by rw [htrim]; omega), htrim]
  have g1 : getField (toJSON t) "id" = some (.str t.id) := by
    simp [toJSON, getField_cons]
  have g2 : getField (toJSON t) "description" = some (.str t.description) := by
    simp [toJSON, getField_cons]
  have g3 : getField (toJSON t) "completed" = some (.bool t.completed) := by
    simp [toJSON, getField_cons]
  have g4 : getField (toJSON t) "createdAt" = some (.str t.createdAt) := by
    simp [toJSON, getField_cons]
  have g5 : getField (toJSON t) "updatedAt" = some (.str t.updatedAt) := by
    simp [toJSON, getField_cons]
  unfold fromJSON
  rw [g1, g2, g3, g4, g5]
  unfold mkTodo
  simp [jinOfField, hval, hid, jvTruthy, hca, hua, dateStrOf]

theorem fromJSONList_toJSON (now gid : String) (ts : List Todo)
    (h : ∀ t ∈ ts, ValidTodo t) :
    fromJSONList now gid (ts.map toJSON) = .ok ts := by
  induction ts with
  | nil => rfl
  | cons t ts ih =>
    have ht := h t (by simp)
    have hts : ∀ u ∈ ts, ValidTodo u := fun u hu => h u (by simp [hu])
    rw [List.map_cons, fromJSONList_cons, fromJSON_toJSON now gid t ht, ih hts]

theorem loadTodos_storeOf (flt : Flt) (h : flt.readErr = none) (ts : List Todo) :
    loadTodos flt (storeOf ts) = (.ok (ts.map toJSON), storeOf ts) := by
  unfold loadTodos storeOf
  rw [h]
  simp [parseFile_printFile]

theorem getAllTodos_storeOf (flt : Flt) (h : flt.readErr = none) (now gid : String)
    (ts : List Todo) (hv : ∀ t ∈ ts, ValidTodo t) :
    getAllTodos flt now gid (storeOf ts) = (.ok ts, storeOf ts) := by
  unfold getAllTodos
  rw [loadTodos_storeOf flt h]
  simp [fromJSONList_toJSON now gid ts hv]

theorem saveTodos_noFlt (rs : List Jrec) (st : FS) :
    saveTodos noFlt (.arr rs) st = (.ok (), ⟨some (printFile rs), none⟩) := rfl

theorem jsFindIndex_of_forall {α : Type} (p : α → Bool) (ts : List α)
    (h : ∀ t ∈ ts, p t = false) : jsFindIndex p ts = none := by
  induction ts with
  | nil => rfl
  | cons t ts ih =>
    rw [jsFindIndex_cons]
    simp [h t (by simp), ih (fun u hu => h u (by simp [hu]))]

theorem jsFindIndex_id_get (ts : List Todo) (i : Nat) (hi : i < ts.length)
    (hn : (ts.map Todo.id).Nodup) :
    jsFindIndex (fun t => t.id == (ts.get ⟨i, hi⟩).id) ts = some i := by
  induction ts generalizing i with
  | nil => simp at hi
  | cons t ts ih =>
    have hn' : (∀ x ∈ ts, ¬ x.id = t.id) ∧ (ts.map Todo.id).Nodup := by
      simpa using hn
    cases i with
    | zero => simp [jsFindIndex_cons]
    | succ j =>
      have hj : j < ts.length := by simpa using hi
      have hgj : ((t :: ts).get ⟨j + 1, hi⟩) = ts.get ⟨j, hj⟩ := by
        simp [List.get_cons_succ]
      have hne : (t.id == (ts.get ⟨j, hj⟩).id) = false := by
        simp only [beq_eq_false_iff_ne, ne_eq]
        intro heq
        exact hn'.1 (ts.get ⟨j, hj⟩) (List.get_mem ts j hj) heq.symm
      rw [jsFindIndex_cons]
      simp only [hgj]
      simp only [ih j hj hn'.2]
      simp only [hne]
      simp

theorem eraseIdx_id_ne (ts : List Todo) (i : Nat) (hi : i < ts.length)
    (hn : (ts.map Todo.id).Nodup) :
    ∀ u ∈ ts.eraseIdx i, u.id ≠ (ts.get ⟨i, hi⟩).id := by
  induction ts generalizing i with
  | nil => simp at hi
  | cons t ts ih =>
    have hn' : (∀ x ∈ ts, ¬ x.id = t.id) ∧ (ts.map Todo.id).Nodup := by
      simpa using hn
    cases i with
    | zero =>
      intro u hu heq
      rw [List.eraseIdx_cons_zero] at hu
      have hg0 : ((t :: ts).get ⟨0, hi⟩) = t := rfl
      rw [hg0] at heq
      exact hn'.1 u hu heq
    | succ j =>
      have hj : j < ts.length := by simpa using hi
      intro u hu heq
      rw [List.eraseIdx_cons_succ] at hu
      have hgj : ((t :: ts).get ⟨j + 1, hi⟩) = ts.get ⟨j, hj⟩ := by
        simp [List.get_cons_succ]
      rw [hgj] at heq
      rcases List.mem_cons.mp hu with rfl | hu'
      · exact hn'.1 (ts.get ⟨j, hj⟩) (List.get_mem ts j hj) heq.symm
      · exact ih j hj hn'.2 u hu' heq

theorem getD_eq_get_of_lt (ts : List Todo) (i : Nat) (hi : i < ts.length) :
    ts.getD i dfltTodo = ts.get ⟨i, hi⟩ := by
  rw [List.getD_eq_getElem ts dfltTodo hi, List.get_eq_getElem]

/-- `updateTodo` on a well-formed store, called with the id of the record at
index `i`: the guards pass, the record is located, and the call reduces to
the update steps followed by the save. -/
theorem updateTodo_eq (flt : Flt) (hre : flt.readErr = none) (now gid : String)
    (ts : List Todo) (i : Nat) (hi : i < ts.length)
    (hv : ∀ t ∈ ts, ValidTodo t) (hn : (ts.map Todo.id).Nodup)
    (ufs : List (String × Jin)) :
    updateTodo flt now gid (.str (ts.get ⟨i, hi⟩).id) (.obj ufs) (storeOf ts) =
      (match (match updGiven (getUpd ufs "description") with
              | some dv => updateDescription now (ts.get ⟨i, hi⟩) dv
              | none => .ok (ts.get ⟨i, hi⟩)) with
       | .error e => (.error e, storeOf ts)
       | .ok t1 =>
         match (match updGiven (getUpd ufs "completed") with
                | some cv => setCompleted now t1 cv
                | none => .ok t1) with
         | .error e => (.error e, storeOf ts)
         | .ok t2 =>
           match saveTodos flt (.arr ((ts.set i t2).map toJSON)) (storeOf ts) with
           | (.error e, st2) => (.error e, st2)
           | (.ok _, st2) => (.ok t2, st2)) := by
  have hid : (ts.get ⟨i, hi⟩).id ≠ "" := (hv _ (List.get_mem ts i hi)).1
  unfold updateTodo
  simp only [getAllTodos_storeOf flt hre now gid ts hv, jsFindIndex_id_get ts i hi hn,
    getD_eq_get_of_lt ts i hi, if_neg hid]

/-- `toggleComplete` on a well-formed store, called with the id of the
record at index `i`. -/
theorem toggleComplete_eq (flt : Flt) (hre : flt.readErr = none) (now gid : String)
    (ts : List Todo) (i : Nat) (hi : i < ts.length)
    (hv : ∀ t ∈ ts, ValidTodo t) (hn : (ts.map Todo.id).Nodup) :
    toggleComplete flt now gid (.str (ts.get ⟨i, hi⟩).id) (storeOf ts) =
      (match saveTodos flt
          (.arr ((ts.set i (toggleTodo now (ts.get ⟨i, hi⟩))).map toJSON)) (storeOf ts) with
       | (.error e, st2) => (.error e, st2)
       | (.ok _, st2) => (.ok (toggleTodo now (ts.get ⟨i, hi⟩)), st2)) := by
  have hid : (ts.get ⟨i, hi⟩).id ≠ "" := (hv _ (List.get_mem ts i hi)).1
  unfold toggleComplete
  simp only [getAllTodos_storeOf flt hre now gid ts hv, jsFindIndex_id_get ts i hi hn,
    getD_eq_get_of_lt ts i hi, if_neg hid]

/-- `deleteTodo` on a well-formed store, called with the id of the record at
index `i`: the record is located and spliced out, then the collection is
persisted. -/
theorem deleteTodo_eq (flt : Flt) (hre : flt.readErr = none) (now gid : String)
    (ts : List Todo) (i : Nat) (hi : i < ts.length)
    (hv : ∀ t ∈ ts, ValidTodo t) (hn : (ts.map Todo.id).Nodup) :
    deleteTodo flt now gid (.str (ts.get ⟨i, hi⟩).id) (storeOf ts) =
      (match saveTodos flt (.arr ((ts.eraseIdx i).map toJSON)) (storeOf ts) with
       | (.error e, st2) => (.error e, st2)
       | (.ok _, st2) => (.ok true, st2)) := by
  have hid : (ts.get ⟨i, hi⟩).id ≠ "" := (hv _ (List.get_mem ts i hi)).1
  unfold deleteTodo
  simp only [getAllTodos_storeOf flt hre now gid ts hv, jsFindIndex_id_get ts i hi hn,
    if_neg hid]

/-- `deleteTodo` with a valid id that is absent from the store fails with
the not-found error and leaves the store unchanged. -/
theorem deleteTodo_absent (flt : Flt) (hre : flt.readErr = none) (now gid s : String)
    (hs : s ≠ "") (ts : List Todo) (hv : ∀ t ∈ ts, ValidTodo t)
    (habs : ∀ t ∈ ts, t.id ≠ s) :
    deleteTodo flt now gid (.str s) (storeOf ts) =
      (.error ⟨"Todo not found"⟩, storeOf ts) := by
  have hfind : jsFindIndex (fun t => t.id == s) ts = none :=
    jsFindIndex_of_forall _ ts (fun t ht => by
      simp only [beq_eq_false_iff_ne, ne_eq]
      exact habs t ht)
  unfold deleteTodo
  simp only [getAllTodos_storeOf flt hre now gid ts hv, hfind, if_neg hs]

theorem mem_of_mem_eraseIdx {α : Type} {x : α} :
    ∀ (l : List α) (i : Nat), x ∈ l.eraseIdx i → x ∈ l := by
  intro l
  induction l with
  | nil => intro i h; simp at h
  | cons a as ih =>
    intro i h
    cases i with
    | zero =>
      rw [List.eraseIdx_cons_zero] at h
      exact List.mem_cons_of_mem a h
    | succ j =>
      rw [List.eraseIdx_cons_succ] at h
      rcases List.mem_cons.mp h with rfl | h'
      · exact List.mem_cons_self x as
      · exact List.mem_cons_of_mem a (ih j h')

theorem set_get_self {α : Type} (ts : List α) :
    ∀ (i : Nat) (hi : i < ts.length), ts.set i (ts.get ⟨i, hi⟩) = ts := by
  induction ts with
  | nil => intro i hi; simp at hi
  | cons t ts ih =>
    intro i hi
    cases i with
    | zero => rfl
    | succ j =>
      have hj : j < ts.length := by simpa using hi
      have hg : (t :: ts).get ⟨j + 1, hi⟩ = ts.get ⟨j, hj⟩ := by
        simp [List.get_cons_succ]
      show t :: ts.set j ((t :: ts).get ⟨j + 1, hi⟩) = t :: ts
      rw [hg, ih j hj]

/-- The branch structure of `validateDescription` on string input. -/
theorem validateDescription_str (s : String) :
    validateDescription (.str s) =
      if (jsTrim s).length = 0 then .error ⟨"Description cannot be empty"⟩
      else if (jsTrim s).length > 500 then
        .error ⟨"Description cannot exceed 500 characters"⟩
      else .ok (jsTrim s) := rfl

theorem dropWhile_replicate_a (n : Nat) :
    List.dropWhile isJsWs (List.replicate n 'a') = List.replicate n 'a' := by
  have ha : isJsWs 'a' = false := by decide
  cases n with
  | zero => simp
  | succ m =>
    rw [List.replicate_succ, List.dropWhile_cons]
    simp [ha]

theorem jsTrim_replicate_a (n : Nat) :
    jsTrim ⟨List.replicate n 'a'⟩ = ⟨List.replicate n 'a'⟩ := by
  show (⟨jsTrimList (List.replicate n 'a')⟩ : String) = _
  unfold jsTrimList
  rw [dropWhile_replicate_a, List.reverse_replicate, dropWhile_replicate_a,
    List.reverse_replicate]

theorem length_replicate_str (n : Nat) :
    (⟨List.replicate n 'a'⟩ : String).length = n := by
  show (List.replicate n 'a').length = n
  simp

/-- A failing staging write raises the wrapped storage error, leaves the
final location untouched and the staging location empty. -/
theorem saveTodos_writeErr (m : String) (re rn : Option String) (rs : List Jrec) (st : FS) :
    saveTodos ⟨re, some m, rn⟩ (.arr rs) st =
      (.error ⟨"Failed to save todos: " ++ m⟩, ⟨st.file, none⟩) := rfl

/-- A failing rename raises the wrapped storage error, leaves the final
location untouched and the staging location empty. -/
theorem saveTodos_renameErr (m : String) (re : Option String) (rs : List Jrec) (st : FS) :
    saveTodos ⟨re, none, some m⟩ (.arr rs) st =
      (.error ⟨"Failed to save todos: " ++ m⟩, ⟨st.file, none⟩) := rfl

/-- `mkTodo` on an accepted description builds the record with the trimmed
description, `completed := false` and both timestamps set to `now`. -/
theorem mkTodo_ok (now gid s : String) (h1 : 1 ≤ (jsTrim s).length)
    (h2 : (jsTrim s).length ≤ 500) :
    mkTodo now gid none (.str s) = .ok ⟨gid, jsTrim s, false, now, now⟩ := by
  unfold mkTodo
  rw [validateDescription_ok s h1 h2]

theorem validateDescription_ok_inv (s d : String)
    (h : validateDescription (.str s) = .ok d) : d = jsTrim s := by
  rw [validateDescription_str] at h
  by_cases h0 : (jsTrim s).length = 0
  · rw [if_pos h0] at h
    exact absurd h (by simp)
  · rw [if_neg h0] at h
    by_cases h5 : (jsTrim s).length > 500
    · rw [if_pos h5] at h
      exact absurd h (by simp)
    · rw [if_neg h5] at h
      have := Except.ok.inj h
      exact this.symm

theorem mkTodo_ok_inv (now gid : String) (idArg : Option Jv) (s : String) (t : Todo)
    (h : mkTodo now gid idArg (.str s) = .ok t) : t.description = jsTrim s := by
  unfold mkTodo at h
  cases hv : validateDescription (.str s) with
  | error e => rw [hv] at h; exact absurd h (by simp)
  | ok d =>
    rw [hv] at h
    have ht := Except.ok.inj h
    rw [← ht]
    exact validateDescription_ok_inv s d hv

theorem updateDescription_ok_inv (now : String) (t : Todo) (s : String) (t' : Todo)
    (h : updateDescription now t (.str s) = .ok t') : t'.description = jsTrim s := by
  unfold updateDescription at h
  cases hv : validateDescription (.str s) with
  | error e => rw [hv] at h; exact absurd h (by simp)
  | ok d =>
    rw [hv] at h
    have ht := Except.ok.inj h
    rw [← ht]
    exact validateDescription_ok_inv s d hv

theorem createTodo_ok_inv (flt : Flt) (now gid s : String) (t : Todo) (st stf : FS)
    (h : createTodo flt now gid (.str s) st = (.ok t, stf)) :
    t.description = jsTrim s := by
  unfold createTodo at h
  cases hmk : mkTodo now gid none (.str s) with
  | error e => rw [hmk] at h; exact absurd h (by simp)
  | ok todo =>
    rw [hmk] at h
    simp only [List.map_append, List.map_cons, List.map_nil] at h
    have htd := mkTodo_ok_inv now gid none s todo hmk
    cases hga : getAllTodos flt now gid st with
    | mk r st1 =>
      rw [hga] at h
      cases r with
      | error e => simp at h
      | ok ts =>
        simp only [List.map_append, List.map_cons, List.map_nil] at h
        cases hsv : saveTodos flt (.arr (ts.map toJSON ++ [toJSON todo])) st1 with
        | mk r2 st2 =>
          rw [hsv] at h
          cases r2 with
          | error e => simp at h
          | ok u =>
            simp at h
            rw [← h.1]
            exact htd

/-! ## The claims -/

/-- C3: description validation accepts exactly the strings whose trimmed
length is between 1 and 500 inclusive (returning the trimmed form), rejects
non-string input with the type error, strings trimming to empty with the
emptiness error, and strings whose trimmed length exceeds 500 with the
length error; in particular a 500-character description is accepted and a
501-character one is rejected. -/
theorem claim_c3_validation_boundary :
    (∀ s : String, 1 ≤ (jsTrim s).length → (jsTrim s).length ≤ 500 →
      validateDescription (.str s) = .ok (jsTrim s)) ∧
    (∀ s : String, (jsTrim s).length = 0 →
      validateDescription (.str s) = .error ⟨"Description cannot be empty"⟩) ∧
    (∀ s : String, 500 < (jsTrim s).length →
      validateDescription (.str s) = .error ⟨"Description cannot exceed 500 characters"⟩) ∧
    (∀ d : Jin, (∀ s, d ≠ .str s) →
      validateDescription d = .error ⟨"Description must be a string"⟩) ∧
    validateDescription (.str ⟨List.replicate 500 'a'⟩) = .ok ⟨List.replicate 500 'a'⟩ ∧
    validateDescription (.str ⟨List.replicate 501 'a'⟩) =
      .error ⟨"Description cannot exceed 500 characters"⟩ := by
  refine ⟨?_, ?_, ?_, ?_, ?_, ?_⟩
  · intro s h1 h2
    exact validateDescription_ok s h1 h2
  · intro s h0
    rw [validateDescription_str, if_pos h0]
  · intro s h5
    rw [validateDescription_str, if_neg (by omega), if_pos h5]
  · intro d hd
    cases d with
    | str s => exact absurd rfl (hd s)
    | bool b => rfl
    | num n => rfl
    | null => rfl
    | undef => rfl
  · rw [validateDescription_str]
    rw [jsTrim_replicate_a 500, length_replicate_str 500]
    simp
  · rw [validateDescription_str]
    rw [jsTrim_replicate_a 501, length_replicate_str 501]
    simp

theorem claim_c3_witness :
    (1 ≤ (jsTrim "  buy milk  ").length ∧ (jsTrim "  buy milk  ").length ≤ 500 ∧
      validateDescription (.str "  buy milk  ") = .ok (jsTrim "  buy milk  ")) ∧
    ((jsTrim "   ").length = 0 ∧
      validateDescription (.str "   ") = .error ⟨"Description cannot be empty"⟩) ∧
    validateDescription .null = .error ⟨"Description must be a string"⟩ :=
  ⟨⟨by decide, by decide,
    claim_c3_validation_boundary.1 "  buy milk  " (by decide) (by decide)⟩,
   ⟨by decide, claim_c3_validation_boundary.2.1 "   " (by decide)⟩,
   claim_c3_validation_boundary.2.2.2.1 .null (fun s => by simp)⟩

/-- C9: every description accepted by the constructor (hence by `create`),
by `updateDescription` (hence by a description update), or by validation
itself, is stored as the trimmed form of the input; consequently every
stored description is its own trimmed form. -/
theorem claim_c9_trimmed_storage :
    (∀ s d, validateDescription (.str s) = .ok d →
      d = jsTrim s ∧ jsTrim d = d) ∧
    (∀ now gid idArg s t, mkTodo now gid idArg (.str s) = .ok t →
      t.description = jsTrim s ∧ jsTrim t.description = t.description) ∧
    (∀ now t s t', updateDescription now t (.str s) = .ok t' →
      t'.description = jsTrim s ∧ jsTrim t'.description = t'.description) ∧
    (∀ flt now gid s t st stf, createTodo flt now gid (.str s) st = (.ok t, stf) →
      t.description = jsTrim s ∧ jsTrim t.description = t.description) := by
  refine ⟨?_, ?_, ?_, ?_⟩
  · intro s d h
    have hd := validateDescription_ok_inv s d h
    exact ⟨hd, by rw [hd]; exact jsTrim_idem s⟩
  · intro now gid idArg s t h
    have hd := mkTodo_ok_inv now gid idArg s t h
    exact ⟨hd, by rw [hd]; exact jsTrim_idem s⟩
  · intro now t s t' h
    have hd := updateDescription_ok_inv now t s t' h
    exact ⟨hd, by rw [hd]; exact jsTrim_idem s⟩
  · intro flt now gid s t st stf h
    have hd := createTodo_ok_inv flt now gid s t st stf h
    exact ⟨hd, by rw [hd]; exact jsTrim_idem s⟩

theorem claim_c9_witness :
    validateDescription (.str "  hi  ") = .ok "hi" ∧
    ("hi" : String) = jsTrim "  hi  " ∧ jsTrim "hi" = "hi" :=
  ⟨by decide, (claim_c9_trimmed_storage.1 "  hi  " "hi" (by decide)).1,
    (claim_c9_trimmed_storage.1 "  hi  " "hi" (by decide)).2⟩

/-- C5: for every collection, `save` followed by `load` (with no injected
faults) succeeds and returns a collection structurally equal to the saved
one, order preserved. -/
theorem claim_c5_roundtrip (rs : List Jrec) (st : FS) :
    ∃ st', saveTodos noFlt (.arr rs) st = (.ok (), st') ∧
      loadTodos noFlt st' = (.ok rs, st') := by
  refine ⟨⟨some (printFile rs), none⟩, saveTodos_noFlt rs st, ?_⟩
  unfold loadTodos noFlt
  simp [parseFile_printFile]

/-- C4: every failure injected at the staging write or at the atomic rename
makes `save` raise the wrapped storage write error, leaves the content at
the final location exactly as it was, and leaves no staging artifact. -/
theorem claim_c4_save_atomicity (flt : Flt) (rs : List Jrec) (st : FS)
    (h : flt.writeErr.isSome ∨ flt.renameErr.isSome) :
    ∃ m, saveTodos flt (.arr rs) st =
      (.error ⟨"Failed to save todos: " ++ m⟩, ⟨st.file, none⟩) := by
  obtain ⟨re, we, rn⟩ := flt
  cases we with
  | some m => exact ⟨m, saveTodos_writeErr m re rn rs st⟩
  | none =>
    cases rn with
    | some m => exact ⟨m, saveTodos_renameErr m re rs st⟩
    | none => simp at h

theorem claim_c4_witness :
    ((⟨none, some "disk full", none⟩ : Flt).writeErr.isSome ∨
      (⟨none, some "disk full", none⟩ : Flt).renameErr.isSome) ∧
    ∃ m, saveTodos ⟨none, some "disk full", none⟩ (.arr [])
        ⟨some "OLD", some "JUNK"⟩ =
      (.error ⟨"Failed to save todos: " ++ m⟩,
        ⟨(⟨some "OLD", some "JUNK"⟩ : FS).file, none⟩) :=
  ⟨by decide,
   claim_c4_save_atomicity ⟨none, some "disk full", none⟩ []
     ⟨some "OLD", some "JUNK"⟩ (by decide)⟩

/-- C8: `create("")` raises the (service-wrapped) emptiness validation
error and mutates nothing, whatever the starting state; starting from the
empty store, `getAll` afterwards still returns the empty collection. -/
theorem claim_c8_create_empty :
    (∀ flt now gid st, createTodo flt now gid (.str "") st =
      (.error ⟨"Failed to create todo: Description cannot be empty"⟩, st)) ∧
    getAllTodos noFlt "T0" "g0" (storeOf []) = (.ok [], storeOf []) := by
  constructor
  · intro flt now gid st
    have hmk : mkTodo now gid none (.str "") =
        .error ⟨"Description cannot be empty"⟩ := rfl
    unfold createTodo
    rw [hmk]
    rfl
  · exact getAllTodos_storeOf noFlt rfl "T0" "g0" [] (by simp)

/-- C10: `getAll` re-validates records while deserializing: a stored file
that is well-formed structured data but holds a record whose description is
whitespace-only (resp. missing) makes `getAll` raise the corresponding
validation error instead of returning the collection, with no Record Store
read failure involved. -/
theorem claim_c10_revalidation :
    parseFile (printFile [badRecEmpty]) = some [badRecEmpty] ∧
    getAllTodos noFlt "T0" "g0" ⟨some (printFile [badRecEmpty]), none⟩ =
      (.error ⟨"Failed to retrieve todos: Description cannot be empty"⟩,
        ⟨some (printFile [badRecEmpty]), none⟩) ∧
    parseFile (printFile [badRecMissing]) = some [badRecMissing] ∧
    getAllTodos noFlt "T0" "g0" ⟨some (printFile [badRecMissing]), none⟩ =
      (.error ⟨"Failed to retrieve todos: Description must be a string"⟩,
        ⟨some (printFile [badRecMissing]), none⟩) := by
  refine ⟨parseFile_printFile _, by decide, parseFile_printFile _, by decide⟩

/-- C6: `update(id, {completed: true})` on the record at index `i` changes
only that record's `completed` and `updatedAt`: the returned and persisted
record keeps `id`, `description` and `createdAt` verbatim (visible in the
record literal), and every other position of the persisted collection is
unchanged. -/
theorem claim_c6_update_minimality (now gid : String) (ts : List Todo) (i : Nat)
    (hi : i < ts.length) (hv : ∀ t ∈ ts, ValidTodo t)
    (hn : (ts.map Todo.id).Nodup) :
    updateTodo noFlt now gid (.str (ts.get ⟨i, hi⟩).id)
        (.obj [("completed", Jin.bool true)]) (storeOf ts) =
      (.ok ⟨(ts.get ⟨i, hi⟩).id, (ts.get ⟨i, hi⟩).description, true,
            (ts.get ⟨i, hi⟩).createdAt, now⟩,
        storeOf (ts.set i ⟨(ts.get ⟨i, hi⟩).id, (ts.get ⟨i, hi⟩).description, true,
            (ts.get ⟨i, hi⟩).createdAt, now⟩)) ∧
    (∀ j, j ≠ i →
      (ts.set i ⟨(ts.get ⟨i, hi⟩).id, (ts.get ⟨i, hi⟩).description, true,
          (ts.get ⟨i, hi⟩).createdAt, now⟩).get? j = ts.get? j) := by
  constructor
  · rw [updateTodo_eq noFlt rfl now gid ts i hi hv hn]
    have e1 : updGiven (getUpd [("completed", Jin.bool true)] "description") = none := by
      decide
    have e2 : updGiven (getUpd [("completed", Jin.bool true)] "completed") =
        some (Jin.bool true) := by decide
    rw [e1, e2]
    simp [setCompleted, saveTodos_noFlt, storeOf]
  · intro j hj
    exact List.get?_set_ne _ _ (Ne.symm hj)

theorem claim_c6_witness :
    (∀ t ∈ [cexTodo], ValidTodo t) ∧ ([cexTodo].map Todo.id).Nodup ∧
    updateTodo noFlt "T1" "g1" (.str "a1") (.obj [("completed", Jin.bool true)])
        (storeOf [cexTodo]) =
      (.ok ⟨"a1", "buy milk", true, "T0", "T1"⟩,
        storeOf [⟨"a1", "buy milk", true, "T0", "T1"⟩]) := by
  refine ⟨by decide, by decide, ?_⟩
  have h := (claim_c6_update_minimality "T1" "g1" [cexTodo] 0 (by decide)
    (by decide) (by decide)).1
  simpa [cexTodo] using h

/-- C7: deleting an existing id removes exactly that record and succeeds;
deleting the same id again fails with the not-found error and leaves the
collection unchanged. -/
theorem claim_c7_delete_twice (now gid now2 gid2 : String) (ts : List Todo)
    (i : Nat) (hi : i < ts.length) (hv : ∀ t ∈ ts, ValidTodo t)
    (hn : (ts.map Todo.id).Nodup) :
    deleteTodo noFlt now gid (.str (ts.get ⟨i, hi⟩).id) (storeOf ts) =
      (.ok true, storeOf (ts.eraseIdx i)) ∧
    deleteTodo noFlt now2 gid2 (.str (ts.get ⟨i, hi⟩).id) (storeOf (ts.eraseIdx i)) =
      (.error ⟨"Todo not found"⟩, storeOf (ts.eraseIdx i)) := by
  constructor
  · rw [deleteTodo_eq noFlt rfl now gid ts i hi hv hn]
    simp [saveTodos_noFlt, storeOf]
  · exact deleteTodo_absent noFlt rfl now2 gid2 ((ts.get ⟨i, hi⟩).id)
      ((hv _ (List.get_mem ts i hi)).1) (ts.eraseIdx i)
      (fun u hu => hv u (mem_of_mem_eraseIdx ts i hu))
      (eraseIdx_id_ne ts i hi hn)

theorem claim_c7_witness :
    (∀ t ∈ [cexTodo], ValidTodo t) ∧
    deleteTodo noFlt "T1" "g1" (.str "a1") (storeOf [cexTodo]) =
      (.ok true, storeOf []) ∧
    deleteTodo noFlt "T2" "g2" (.str "a1") (storeOf []) =
      (.error ⟨"Todo not found"⟩, storeOf []) := by
  refine ⟨by decide, ?_, ?_⟩
  · have h := (claim_c7_delete_twice "T1" "g1" "T2" "g2" [cexTodo] 0 (by decide)
      (by decide) (by decide)).1
    simpa [cexTodo] using h
  · have h := (claim_c7_delete_twice "T1" "g1" "T2" "g2" [cexTodo] 0 (by decide)
      (by decide) (by decide)).2
    simpa [cexTodo] using h

/-- C1 counterexample: the claim says `update(id, updates)` fails with the
invalid-argument error on an empty mapping; in fact, with a stored record of
id "a1", `update("a1", {})` passes the guard and succeeds, returning the
record unchanged. -/
theorem claim_c1_counterexample :
    updateTodo noFlt "T1" "g1" (.str "a1") (.obj []) (storeOf [cexTodo]) =
      (.ok cexTodo, storeOf [cexTodo]) ∧
    (updateTodo noFlt "T1" "g1" (.str "a1") (.obj []) (storeOf [cexTodo])).1 ≠
      .error ⟨"Updates object is required"⟩ := by
  constructor <;> decide

/-- C1 amended: `update(id, updates)` fails with the invalid-argument error
(mutating nothing) exactly for absent or non-mapping `updates` (undefined,
null, string, boolean, number); an empty mapping, or one containing none of
the recognized fields `description` and `completed`, passes the guard, and
for a stored id the call succeeds, returning and re-persisting the located
record unchanged. -/
theorem claim_c1_amended :
    (∀ flt now gid s u st, s ≠ "" → isObjArg u = false →
      updateTodo flt now gid (.str s) u st =
        (.error ⟨"Updates object is required"⟩, st)) ∧
    (∀ now gid ts (i : Nat) (ufs : List (String × Jin)) (hi : i < ts.length),
      (∀ t ∈ ts, ValidTodo t) → (ts.map Todo.id).Nodup →
      updGiven (getUpd ufs "description") = none →
      updGiven (getUpd ufs "completed") = none →
      updateTodo noFlt now gid (.str (ts.get ⟨i, hi⟩).id) (.obj ufs) (storeOf ts) =
        (.ok (ts.get ⟨i, hi⟩), storeOf ts)) := by
  constructor
  · intro flt now gid s u st hs hobj
    unfold updateTodo
    cases u with
    | obj fs => simp [isObjArg] at hobj
    | undef => simp [hs]
    | null => simp [hs]
    | str s2 => simp [hs]
    | bool b => simp [hs]
    | num n => simp [hs]
  · intro now gid ts i ufs hi hv hn hd hc
    rw [updateTodo_eq noFlt rfl now gid ts i hi hv hn ufs]
    rw [hd, hc]
    simp only [set_get_self ts i hi, saveTodos_noFlt]
    rfl

theorem claim_c1_amended_witness :
    (("a1" : String) ≠ "" ∧ isObjArg .null = false ∧
      updateTodo noFlt "T1" "g1" (.str "a1") .null (storeOf [cexTodo]) =
        (.error ⟨"Updates object is required"⟩, storeOf [cexTodo])) ∧
    ((∀ t ∈ [cexTodo], ValidTodo t) ∧
      updateTodo noFlt "T1" "g1" (.str "a1") (.obj [("other", Jin.bool true)])
          (storeOf [cexTodo]) = (.ok cexTodo, storeOf [cexTodo])) := by
  refine ⟨⟨by decide, by decide, ?_⟩, ⟨by decide, ?_⟩⟩
  · exact claim_c1_amended.1 noFlt "T1" "g1" "a1" .null (storeOf [cexTodo])
      (by decide) (by decide)
  · have h := claim_c1_amended.2 "T1" "g1" [cexTodo] 0 [("other", Jin.bool true)]
      (by decide) (by decide) (by decide) (by decide) (by decide)
    simpa [cexTodo] using h

/-- C2 counterexample: with an injected read failure "boom", the store's
`loadTodos` raises "Failed to load todos: boom", but `getAllTodos` raises a
different, re-wrapped error — not exactly the error the store raised. -/
theorem claim_c2_counterexample :
    (loadTodos ⟨some "boom", none, none⟩ (storeOf [])).1 =
      .error ⟨"Failed to load todos: boom"⟩ ∧
    (getAllTodos ⟨some "boom", none, none⟩ "T0" "g0" (storeOf [])).1 =
      .error ⟨"Failed to retrieve todos: Failed to load todos: boom"⟩ ∧
    (⟨"Failed to retrieve todos: Failed to load todos: boom"⟩ : JsError) ≠
      ⟨"Failed to load todos: boom"⟩ := by
  refine ⟨by decide, by decide, by decide⟩

/-- C2 amended: the service never swallows a store failure — every injected
store failure surfaces to the caller as an error — but `getAllTodos` and
`createTodo` re-wrap the store's error, prefixing its message, rather than
raising it unmodified; `updateTodo`, `toggleComplete` and `deleteTodo` raise
save-phase store errors exactly as the store raised them (their load-phase
errors arrive already wrapped by `getAllTodos`). -/
theorem claim_c2_amended :
    (∀ m now gid c tmp, getAllTodos ⟨some m, none, none⟩ now gid ⟨some c, tmp⟩ =
      (.error ⟨"Failed to retrieve todos: " ++ ("Failed to load todos: " ++ m)⟩,
        ⟨some c, tmp⟩)) ∧
    (∀ m now gid c tmp s, 1 ≤ (jsTrim s).length → (jsTrim s).length ≤ 500 →
      createTodo ⟨some m, none, none⟩ now gid (.str s) ⟨some c, tmp⟩ =
        (.error ⟨"Failed to create todo: " ++ ("Failed to retrieve todos: " ++
          ("Failed to load todos: " ++ m))⟩, ⟨some c, tmp⟩)) ∧
    (∀ m now gid ts (i : Nat) (hi : i < ts.length),
      (∀ t ∈ ts, ValidTodo t) → (ts.map Todo.id).Nodup →
      updateTodo ⟨none, some m, none⟩ now gid (.str (ts.get ⟨i, hi⟩).id) (.obj [])
          (storeOf ts) =
        (.error ⟨"Failed to save todos: " ++ m⟩,
          ⟨some (printFile (ts.map toJSON)), none⟩) ∧
      (saveTodos ⟨none, some m, none⟩ (.arr (ts.map toJSON)) (storeOf ts)).1 =
        .error ⟨"Failed to save todos: " ++ m⟩) ∧
    (∀ m now gid ts (i : Nat) (hi : i < ts.length),
      (∀ t ∈ ts, ValidTodo t) → (ts.map Todo.id).Nodup →
      toggleComplete ⟨none, some m, none⟩ now gid (.str (ts.get ⟨i, hi⟩).id)
          (storeOf ts) =
        (.error ⟨"Failed to save todos: " ++ m⟩,
          ⟨some (printFile (ts.map toJSON)), none⟩) ∧
      (saveTodos ⟨none, some m, none⟩
          (.arr ((ts.set i (toggleTodo now (ts.get ⟨i, hi⟩))).map toJSON))
          (storeOf ts)).1 =
        .error ⟨"Failed to save todos: " ++ m⟩) ∧
    (∀ m now gid ts (i : Nat) (hi : i < ts.length),
      (∀ t ∈ ts, ValidTodo t) → (ts.map Todo.id).Nodup →
      deleteTodo ⟨none, some m, none⟩ now gid (.str (ts.get ⟨i, hi⟩).id)
          (storeOf ts) =
        (.error ⟨"Failed to save todos: " ++ m⟩,
          ⟨some (printFile (ts.map toJSON)), none⟩) ∧
      (saveTodos ⟨none, some m, none⟩ (.arr ((ts.eraseIdx i).map toJSON))
          (storeOf ts)).1 =
        .error ⟨"Failed to save todos: " ++ m⟩) := by
  refine ⟨?_, ?_, ?_, ?_, ?_⟩
  · intro m now gid c tmp
    rfl
  · intro m now gid c tmp s h1 h2
    unfold createTodo
    rw [mkTodo_ok now gid s h1 h2]
    rfl
  · intro m now gid ts i hi hv hn
    refine ⟨?_, rfl⟩
    rw [updateTodo_eq ⟨none, some m, none⟩ rfl now gid ts i hi hv hn []]
    rfl
  · intro m now gid ts i hi hv hn
    refine ⟨?_, rfl⟩
    rw [toggleComplete_eq ⟨none, some m, none⟩ rfl now gid ts i hi hv hn]
    rfl
  · intro m now gid ts i hi hv hn
    refine ⟨?_, rfl⟩
    rw [deleteTodo_eq ⟨none, some m, none⟩ rfl now gid ts i hi hv hn]
    rfl

theorem claim_c2_amended_witness :
    getAllTodos ⟨some "boom", none, none⟩ "T0" "g0" ⟨some "[]", none⟩ =
      (.error ⟨"Failed to retrieve todos: " ++ ("Failed to load todos: " ++ "boom")⟩,
        ⟨some "[]", none⟩) ∧
    ((∀ t ∈ [cexTodo], ValidTodo t) ∧
      deleteTodo ⟨none, some "disk", none⟩ "T1" "g1" (.str "a1") (storeOf [cexTodo]) =
        (.error ⟨"Failed to save todos: " ++ "disk"⟩,
          ⟨some (printFile ([cexTodo].map toJSON)), none⟩)) := by
  refine ⟨claim_c2_amended.1 "boom" "T0" "g0" "[]" none, ⟨by decide, ?_⟩⟩
  have h := (claim_c2_amended.2.2.2.2 "disk" "T1" "g1" [cexTodo] 0 (by decide)
    (by decide) (by decide)).1
  simpa [cexTodo] using h

end TodoApp
